import Mathlib

set_option maxRecDepth 4000

/-!
Verification of the RAG chat assistant (app/app.py, app/main.py,
app/search_tools.py, app/streamlit_app.py): a shallow embedding of the
stream bridge, the search-tool adapter, the document filter and the
per-turn caller logic, with theorems about the spec's claims.
-/

namespace AiAgentFaq

/-! ## Data model -/

/-- One turn of conversation, as stored in the callers' session history
(dicts with a role and a content in the Python code). -/
structure Message where
  role : String
  content : String
deriving DecidableEq

/-- Result of a completed agent run: the final output text and the messages
produced during the run (`response.output`, `response.new_messages()`). -/
structure AgentRunResult where
  output : String
  new_messages : List Message
deriving DecidableEq

/-! ## Stream bridge (src/app/app.py, `stream_response`) -/

/-- The mutable locals of the inner `agen` loop of `stream_response`:
`last_len` and `full_text`. -/
structure BridgeState where
  last_len : Nat
  full_text : String
deriving DecidableEq

/-- One iteration of the `async for chunk in result.stream_output(...)` body:
`new_text = chunk[last_len:]`; `last_len = len(chunk)`; `full_text = chunk`;
`if new_text: yield new_text`.  Returns the updated state and the list of
yielded pieces (empty or a singleton). -/
def bridgeStep (st : BridgeState) (chunk : String) : BridgeState × List String :=
  let new_text := chunk.drop st.last_len
  let st' : BridgeState := ⟨chunk.length, chunk⟩
  (st', if new_text = "" then [] else [new_text])

/-- Running the loop body over a whole (completed) sequence of cumulative
chunks, collecting every yielded increment and the final loop state. -/
def bridgeRun : BridgeState → List String → List String × BridgeState
  | st, [] => ([], st)
  | st, chunk :: rest =>
    let step := bridgeStep st chunk
    let next := bridgeRun step.1 rest
    (step.2 ++ next.1, next.2)

/-- The loop starts with `last_len = 0` and `full_text = ""`. -/
def initialBridgeState : BridgeState := ⟨0, ""⟩

/-- All text increments `stream_response` yields for a completed chunk
sequence. -/
def increments (chunks : List String) : List String :=
  (bridgeRun initialBridgeState chunks).1

/-- The `full_text` value retained when the stream completes; it is stored in
the session as `st.session_state._last_response`. -/
def retainedFullText (chunks : List String) : String :=
  (bridgeRun initialBridgeState chunks).2.full_text

/-- Observable events of one streamed run: a yielded increment, or the single
logging call made after the loop. -/
inductive StreamEvent where
  | yieldInc (text : String)
  | logCall (msgs : List Message)
deriving DecidableEq

/-- Distinguishes the logging event. -/
def StreamEvent.isLogCall : StreamEvent → Bool
  | .logCall _ => true
  | .yieldInc _ => false

/-- The ordered event trace of one completed streamed run of
`stream_response`: every increment is yielded during the loop, and
`logs.log_interaction_to_file(agent, result.new_messages())` runs exactly
after the loop finishes. -/
def streamResponseEvents (chunks : List String) (new_messages : List Message) :
    List StreamEvent :=
  (increments chunks).map StreamEvent.yieldInc ++ [StreamEvent.logCall new_messages]

/-! ## Search tool (src/app/search_tools.py) -/

/-- The index the tool wraps, as consumed by `SearchTool`: a
`search(query, num_results)` capability producing results of some type. -/
structure Index (α : Type) where
  search : String → Nat → List α

/-- `class SearchTool`: holds the index given to `__init__`. -/
structure SearchTool (α : Type) where
  index : Index α

/-- `SearchTool.search`: `return self.index.search(query, num_results=5)`. -/
def SearchTool.search (tool : SearchTool α) (query : String) : List α :=
  tool.index.search query 5

/-! ## Document filter (src/app/app.py `init_agent`, src/app/main.py
`initialize_index`, src/app/streamlit_app.py `initialize_index`) -/

/-- A document record as the filter consumes it: the code only reads
`doc["filename"]`. -/
structure Document where
  filename : String
  content : String
deriving DecidableEq

/-- Python's substring test `needle in hay` on lists of characters: true on an
empty haystack only for an empty needle, else a match at the head or a match
further right. -/
def listContainsSub (needle : List Char) : List Char → Bool
  | [] => needle.isEmpty
  | c :: rest => needle.isPrefixOf (c :: rest) || listContainsSub needle rest

/-- Python's `needle in hay` for strings. -/
def strContains (hay needle : String) : Bool :=
  listContainsSub needle.data hay.data

/-- The local `filter` closure used at every index build site:
`return "data-engineering" in doc["filename"]`. -/
def filter (doc : Document) : Bool :=
  strContains doc.filename "data-engineering"

/-- Modelled from the spec: `ingest.index_data` is not under `src/` (only its
call sites are).  Per the spec, the build "applies `filter_predicate(document)
-> bool` to each Document, keeping only those passing" and "indexes exactly
`{d in D : P(d)}`".  This models the set of documents the index is built
from. -/
def index_data (docs : List Document) (filt : Document → Bool) : List Document :=
  docs.filter filt

/-! ## Logger and caller turns (src/app/streamlit_app.py `main`,
src/app/main.py `main`) -/

/-- What the logger reports on its own side channel. -/
inductive LogOutcome where
  | recorded
  | failureReported
deriving DecidableEq

/-- Modelled from the spec: `logs.log_interaction_to_file` is not under `src/`
(only its call sites are).  Per the spec, the Logger "fails silently from the
caller's perspective" and "should itself record/report the failure through a
separate side channel"; `backendOk` models whether the underlying write
succeeds, and in both cases the call returns normally to the caller. -/
def log_interaction_to_file (backendOk : Bool) (msgs : List Message) : LogOutcome :=
  if backendOk then .recorded else .failureReported

/-- The user message appended to the session history for a prompt. -/
def mkUserMessage (content : String) : Message :=
  ⟨"user", content⟩

/-- The assistant message appended to the session history for an answer. -/
def mkAssistantMessage (content : String) : Message :=
  ⟨"assistant", content⟩

/-- The argument the callers pass to the agent's run:
`agent.run(user_prompt=prompt)` / `agent.run_stream(user_prompt=prompt)`
receive only the prompt; the session history is not an argument. -/
def agentRunInput (history : List Message) (prompt : String) : String :=
  prompt

/-- Result of one completed chat turn as the caller observes it. -/
structure TurnOutcome where
  displayed : String
  history : List Message
  logOutcome : LogOutcome
deriving DecidableEq

/-- One completed turn of `main` in src/app/streamlit_app.py, success path:
append the user message to the session history, run the agent on the prompt
alone, log the interaction, display `response.output` and append it as the
assistant message. -/
def streamlitTurn (history : List Message) (prompt : String)
    (runAgent : String → AgentRunResult) (backendOk : Bool) : TurnOutcome :=
  let history₁ := history ++ [mkUserMessage prompt]
  let response := runAgent (agentRunInput history prompt)
  let logRes := log_interaction_to_file backendOk response.new_messages
  { displayed := response.output
    history := history₁ ++ [mkAssistantMessage response.output]
    logOutcome := logRes }

/-! ## Unfolding lemmas -/

theorem bridgeRun_nil (st : BridgeState) : bridgeRun st [] = ([], st) := rfl

theorem bridgeRun_cons (st : BridgeState) (c : String) (rest : List String) :
    bridgeRun st (c :: rest) =
      ((bridgeStep st c).2 ++ (bridgeRun (bridgeStep st c).1 rest).1,
        (bridgeRun (bridgeStep st c).1 rest).2) := rfl

theorem bridgeStep_state (st : BridgeState) (c : String) :
    (bridgeStep st c).1 = ⟨c.length, c⟩ := rfl

theorem bridgeStep_out (st : BridgeState) (c : String) :
    (bridgeStep st c).2 =
      if c.drop st.last_len = "" then [] else [c.drop st.last_len] := rfl

theorem string_length_eq_data (s : String) : s.length = s.data.length := rfl

/-! ## String helpers -/

theorem join_nil : String.join ([] : List String) = "" := rfl

theorem join_cons (a : String) (l : List String) :
    String.join (a :: l) = a ++ String.join l := by
  apply String.ext
  simp only [String.data_join, String.data_append, List.map_cons, List.flatten_cons]

theorem append_drop_of_prefix {s c : String} (h : s.data <+: c.data) :
    s ++ c.drop s.length = c := by
  apply String.ext
  obtain ⟨t, ht⟩ := h
  simp only [String.data_append, String.data_drop, string_length_eq_data, ← ht]
  exact congrArg _ (List.drop_left s.data t)

theorem drop_eq_empty_of_le {c : String} {n : Nat} (h : c.length ≤ n) :
    c.drop n = "" := by
  apply String.ext
  simp only [String.data_drop]
  exact List.drop_eq_nil_of_le h

theorem eq_of_prefix_of_drop_empty {s c : String} (h : s.data <+: c.data)
    (hd : c.drop s.length = "") : s = c := by
  have hds : c.data.drop s.data.length = [] := by
    have h2 := congrArg String.data hd
    rw [String.data_drop] at h2
    exact h2
  have hle : c.data.length ≤ s.data.length := List.drop_eq_nil_iff.mp hds
  exact String.ext (h.sublist.eq_of_length (Nat.le_antisymm h.sublist.length_le hle))

/-! ## Bridge invariants -/

theorem bridgeRun_join (chunks : List String) : ∀ s : String,
    (∀ c ∈ chunks.head?, s.data <+: c.data) →
    List.Chain' (fun a b => a.data <+: b.data) chunks →
    s ++ String.join (bridgeRun ⟨s.length, s⟩ chunks).1
      = (bridgeRun ⟨s.length, s⟩ chunks).2.full_text := by
  induction chunks with
  | nil =>
    intro s _ _
    rw [bridgeRun_nil]
    show s ++ String.join [] = s
    rw [join_nil, String.append_empty]
  | cons c cs ih =>
    intro s hhead hchain
    have hpre : s.data <+: c.data := hhead c (by simp)
    obtain ⟨hheadcs, hchaincs⟩ := List.chain'_cons'.mp hchain
    rw [bridgeRun_cons, bridgeStep_state, bridgeStep_out]
    by_cases hnt : c.drop s.length = ""
    · have hcs : s = c := eq_of_prefix_of_drop_empty hpre hnt
      subst hcs
      rw [if_pos hnt, List.nil_append]
      exact ih s hheadcs hchaincs
    · rw [if_neg hnt, List.singleton_append]
      rw [join_cons, ← String.append_assoc, append_drop_of_prefix hpre]
      exact ih c hheadcs hchaincs

theorem bridgeRun_full_text (chunks : List String) : ∀ st : BridgeState,
    (bridgeRun st chunks).2.full_text = chunks.getLastD st.full_text := by
  induction chunks with
  | nil => intro st; rfl
  | cons c cs ih =>
    intro st
    rw [bridgeRun_cons]
    show (bridgeRun (bridgeStep st c).1 cs).2.full_text = _
    rw [bridgeStep_state, ih ⟨c.length, c⟩, List.getLastD_cons]

theorem retainedFullText_eq_getLast (chunks : List String) :
    retainedFullText chunks = chunks.getLastD "" := by
  unfold retainedFullText initialBridgeState
  rw [bridgeRun_full_text]

theorem join_increments_eq_getLast (chunks : List String)
    (hmono : List.Chain' (fun a b : String => a.data <+: b.data) chunks) :
    String.join (increments chunks) = chunks.getLastD "" := by
  have hh : ∀ c ∈ chunks.head?, ("" : String).data <+: c.data := by
    intro c _
    exact ⟨c.data, rfl⟩
  have h := bridgeRun_join chunks "" hh hmono
  have hlen : ("" : String).length = 0 := rfl
  rw [hlen] at h
  rw [String.empty_append] at h
  calc String.join (increments chunks)
      = (bridgeRun ⟨0, ""⟩ chunks).2.full_text := h
    _ = chunks.getLastD ("" : String) := by
        rw [bridgeRun_full_text]

theorem mem_bridgeRun_ne_empty (chunks : List String) :
    ∀ (st : BridgeState) (s : String), s ∈ (bridgeRun st chunks).1 → s ≠ "" := by
  induction chunks with
  | nil =>
    intro st s h
    simp [bridgeRun_nil] at h
  | cons c cs ih =>
    intro st s h
    rw [bridgeRun_cons, bridgeStep_out] at h
    by_cases hnt : c.drop st.last_len = ""
    · rw [if_pos hnt, List.nil_append] at h
      exact ih _ s h
    · rw [if_neg hnt, List.cons_append, List.nil_append] at h
      rcases List.mem_cons.mp h with he | ht
      · rw [he]; exact hnt
      · exact ih _ s ht

theorem filter_isLogCall_map_yield (l : List String) :
    (l.map StreamEvent.yieldInc).filter StreamEvent.isLogCall = [] := by
  induction l with
  | nil => rfl
  | cons a t ih => simp [StreamEvent.isLogCall, ih]

/-! ## Claim theorems -/

/-- Claim C1: for every streamed run in which each cumulative chunk extends
the previous one as a prefix, concatenating all increments yielded by
`stream_response` reproduces the run's final full output text exactly — the
last cumulative chunk, which is also the `full_text` the bridge retains — so
the increments are gap-free and in generation order, for any chunking
schedule. -/
theorem c1_stream_bridge_concat_eq_final (chunks : List String)
    (hmono : List.Chain' (fun a b : String => a.data <+: b.data) chunks) :
    String.join (increments chunks) = chunks.getLastD ""
      ∧ String.join (increments chunks) = retainedFullText chunks := by
  have h := join_increments_eq_getLast chunks hmono
  exact ⟨h, by rw [h, retainedFullText_eq_getLast]⟩

theorem c1_witness :
    List.Chain' (fun a b : String => a.data <+: b.data) ["ab", "abc"]
      ∧ (String.join (increments ["ab", "abc"]) = (["ab", "abc"] : List String).getLastD ""
          ∧ String.join (increments ["ab", "abc"]) = retainedFullText ["ab", "abc"]) := by
  have hchain : List.Chain' (fun a b : String => a.data <+: b.data) ["ab", "abc"] := by
    rw [List.chain'_cons]
    exact ⟨⟨"c".data, by decide⟩, List.chain'_singleton _⟩
  exact ⟨hchain, c1_stream_bridge_concat_eq_final ["ab", "abc"] hchain⟩

/-- Claim C2: `SearchTool.search(query)` returns exactly
`index.search(query, num_results=5)`; when the wrapped index honors its
`num_results` bound, the result list has at most 5 elements, and the cap is
fixed — the tool's agent-callable interface takes only the query string, so
no per-call argument can change the 5. -/
theorem c2_search_tool_fixed_cap {α : Type} (tool : SearchTool α) (q : String)
    (hcap : ∀ (q' : String) (n : Nat), (tool.index.search q' n).length ≤ n) :
    tool.search q = tool.index.search q 5 ∧ (tool.search q).length ≤ 5 :=
  ⟨rfl, hcap q 5⟩

theorem c2_witness :
    (SearchTool.mk ⟨fun _ _ => ([] : List Nat)⟩).search "pandas"
        = (SearchTool.mk ⟨fun _ _ => ([] : List Nat)⟩).index.search "pandas" 5
      ∧ ((SearchTool.mk ⟨fun _ _ => ([] : List Nat)⟩).search "pandas").length ≤ 5 :=
  c2_search_tool_fixed_cap (SearchTool.mk ⟨fun _ _ => ([] : List Nat)⟩) "pandas"
    (fun _ n => Nat.zero_le n)

/-- Claim C3: a failure of the logging operation does not fail or alter the
user-visible answer: the caller displays exactly the agent's output, and the
displayed text and resulting history are identical whether the logger's
underlying write succeeds or fails (the failure shows up only on the logger's
own side channel). -/
theorem c3_logging_failure_isolated (history : List Message) (prompt : String)
    (runAgent : String → AgentRunResult) :
    (streamlitTurn history prompt runAgent false).displayed = (runAgent prompt).output
      ∧ (streamlitTurn history prompt runAgent false).displayed
          = (streamlitTurn history prompt runAgent true).displayed
      ∧ (streamlitTurn history prompt runAgent false).history
          = (streamlitTurn history prompt runAgent true).history :=
  ⟨rfl, rfl, rfl⟩

/-- Claim C4 as stated is false: on the cumulative chunks "dbt", "dbt is",
"dbt is a tool" the third increment the bridge yields is " a tool", not
" tool" (and "dbt" ++ " is" ++ " tool" would be "dbt is tool", not the final
text). -/
theorem c4_counterexample :
    increments ["dbt", "dbt is", "dbt is a tool"] ≠ ["dbt", " is", " tool"] := by
  decide

/-- Claim C4 amended: on the cumulative chunks "dbt", "dbt is",
"dbt is a tool" the bridge yields the increments "dbt", " is", " a tool",
whose concatenation reconstructs "dbt is a tool". -/
theorem c4_increments_scenario :
    increments ["dbt", "dbt is", "dbt is a tool"] = ["dbt", " is", " a tool"]
      ∧ String.join (increments ["dbt", "dbt is", "dbt is a tool"]) = "dbt is a tool" := by
  decide

/-- Claim C5: for every streamed run whose chunk stream completes, the
logging call appears exactly once in the run's event trace, strictly after
every yielded increment (it is the final event), and it receives the run's
`new_messages`. -/
theorem c5_logger_called_once_after_stream (chunks : List String) (msgs : List Message) :
    (streamResponseEvents chunks msgs).filter StreamEvent.isLogCall
        = [StreamEvent.logCall msgs]
      ∧ (streamResponseEvents chunks msgs).getLast? = some (StreamEvent.logCall msgs)
      ∧ ∀ e ∈ (streamResponseEvents chunks msgs).dropLast, e.isLogCall = false := by
  refine ⟨?_, ?_, ?_⟩
  · rw [streamResponseEvents, List.filter_append, filter_isLogCall_map_yield]
    simp [StreamEvent.isLogCall]
  · rw [streamResponseEvents]
    exact List.getLast?_concat _
  · intro e he
    rw [streamResponseEvents, List.dropLast_concat] at he
    obtain ⟨s, _, rfl⟩ := List.mem_map.mp he
    rfl

theorem c5_witness :
    (streamResponseEvents ["hi"] []).filter StreamEvent.isLogCall
        = [StreamEvent.logCall []]
      ∧ (streamResponseEvents ["hi"] []).getLast? = some (StreamEvent.logCall [])
      ∧ (StreamEvent.yieldInc "hi").isLogCall = false :=
  ⟨(c5_logger_called_once_after_stream ["hi"] []).1,
    (c5_logger_called_once_after_stream ["hi"] []).2.1,
    (c5_logger_called_once_after_stream ["hi"] []).2.2 (StreamEvent.yieldInc "hi")
      (by decide)⟩

/-- Claim C6: the index is built from exactly the documents passing the
filter predicate, and on the two-document corpus the configured filter
("data-engineering" occurs in the filename) keeps exactly the first
document. -/
theorem c6_filter_exact :
    (∀ (docs : List Document) (filt : Document → Bool) (d : Document),
        d ∈ index_data docs filt ↔ d ∈ docs ∧ filt d = true)
      ∧ index_data
          [⟨"data-engineering-week1.md", ""⟩, ⟨"ml-zoomcamp-week1.md", ""⟩] filter
          = [⟨"data-engineering-week1.md", ""⟩] := by
  constructor
  · intro docs filt d
    simp [index_data, List.mem_filter]
  · decide

theorem c6_witness :
    (⟨"data-engineering-week1.md", ""⟩ : Document) ∈
        index_data [⟨"data-engineering-week1.md", ""⟩, ⟨"ml-zoomcamp-week1.md", ""⟩] filter
      ↔ ((⟨"data-engineering-week1.md", ""⟩ : Document) ∈
            [(⟨"data-engineering-week1.md", ""⟩ : Document), ⟨"ml-zoomcamp-week1.md", ""⟩]
          ∧ filter ⟨"data-engineering-week1.md", ""⟩ = true) :=
  c6_filter_exact.1
    [⟨"data-engineering-week1.md", ""⟩, ⟨"ml-zoomcamp-week1.md", ""⟩] filter
    ⟨"data-engineering-week1.md", ""⟩

/-- Claim C7's "passed in to the Agent's run" is false for this code: the
call sites invoke the run with the prompt alone, so two different session
histories give the agent the same input and the same displayed answer. -/
theorem c7_counterexample :
    agentRunInput [mkUserMessage "earlier question"] "hi" = agentRunInput [] "hi"
      ∧ ([mkUserMessage "earlier question"] : List Message) ≠ []
      ∧ (streamlitTurn [mkUserMessage "earlier question"] "hi"
            (fun p => ⟨p ++ "!", []⟩) true).displayed
          = (streamlitTurn [] "hi" (fun p => ⟨p ++ "!", []⟩) true).displayed :=
  ⟨rfl, by decide, rfl⟩

/-- Claim C7 amended: the conversation history is owned by the
caller/session and appended to — after a completed turn it equals the
previous history extended by the user message and then the assistant
message, earlier entries unchanged — but it is not passed in to the Agent's
run, which receives only the user prompt. -/
theorem c7_history_appended (history : List Message) (prompt : String)
    (runAgent : String → AgentRunResult) (backendOk : Bool) :
    (streamlitTurn history prompt runAgent backendOk).history
      = history ++ [mkUserMessage prompt, mkAssistantMessage (runAgent prompt).output] := by
  simp [streamlitTurn, agentRunInput]

/-- Claim C8: for a completed prefix-monotone streamed run, the retained
`full_text` stored in the session is the last cumulative chunk received and
equals the run's final full output text (the concatenation of everything that
was yielded), even though only increments were yielded during iteration. -/
theorem c8_final_text_retained (chunks : List String)
    (hmono : List.Chain' (fun a b : String => a.data <+: b.data) chunks) :
    retainedFullText chunks = chunks.getLastD ""
      ∧ retainedFullText chunks = String.join (increments chunks) := by
  have h1 := retainedFullText_eq_getLast chunks
  exact ⟨h1, by rw [h1, join_increments_eq_getLast chunks hmono]⟩

theorem c8_witness :
    List.Chain' (fun a b : String => a.data <+: b.data) ["x", "xy"]
      ∧ (retainedFullText ["x", "xy"] = (["x", "xy"] : List String).getLastD ""
          ∧ retainedFullText ["x", "xy"] = String.join (increments ["x", "xy"])) := by
  have hchain : List.Chain' (fun a b : String => a.data <+: b.data) ["x", "xy"] := by
    rw [List.chain'_cons]
    exact ⟨⟨"y".data, by decide⟩, List.chain'_singleton _⟩
  exact ⟨hchain, c8_final_text_retained ["x", "xy"] hchain⟩

/-- Claim C9: every increment the bridge yields is a non-empty string — a
chunk whose suffix beyond the already-emitted length is empty produces no
yield at all, so the caller never observes an empty increment. -/
theorem c9_increments_nonempty (chunks : List String) (s : String)
    (h : s ∈ increments chunks) : s ≠ "" :=
  mem_bridgeRun_ne_empty chunks initialBridgeState s h

theorem c9_witness :
    ("ab" : String) ∈ increments ["ab"] ∧ ("ab" : String) ≠ "" :=
  ⟨by decide, c9_increments_nonempty ["ab"] "ab" (by decide)⟩

/-- Claim C10: the bridge's per-chunk step is total; on a non-monotone chunk
no longer than the length already emitted, the out-of-range slice is the
empty string, nothing is yielded, and the tracked length and retained full
text are still updated to that chunk. -/
theorem c10_step_total_nonmonotone (st : BridgeState) (c : String)
    (h : c.length ≤ st.last_len) :
    c.drop st.last_len = "" ∧ (bridgeStep st c).2 = []
      ∧ (bridgeStep st c).1 = ⟨c.length, c⟩ := by
  have hd : c.drop st.last_len = "" := drop_eq_empty_of_le h
  refine ⟨hd, ?_, rfl⟩
  rw [bridgeStep_out, if_pos hd]

theorem c10_witness :
    ("hi" : String).drop 5 = "" ∧ (bridgeStep ⟨5, "hello"⟩ "hi").2 = []
      ∧ (bridgeStep ⟨5, "hello"⟩ "hi").1 = ⟨2, "hi"⟩ :=
  c10_step_total_nonmonotone ⟨5, "hello"⟩ "hi" (by decide)

end AiAgentFaq
